import Mathlib

/-!
Verification of the `perf_timer` performance-timer library.

This file gives a shallow embedding of the core of `perf_timer.py`:

* the live per-thread scope stack (`PerfTimer.__enter__` / `__exit__` / `Note`),
* the binary event-log writer (`test_write_binary`) and reader,
* the replay loop of the `__main__` block,
* the perfQueue drain loop of `PrintPerfReport` (with its minimum-frame-time
  filter) and the aggregation loop of `_printPerfReport`,

and proves theorems settling the specification claims about them.  Wall-clock
readings are modelled as rationals; Python dictionaries are modelled as
association lists (insertion-ordered, like Python dicts) or as functions.
-/

set_option maxHeartbeats 1000000

namespace PerfTimerSpec

/-- A completed measurement, as appended to `PerfTimer.perfQueue`:
the tuple `(scopeName, inclusive, exclusive, threadId, frame, incstart, now)`. -/
structure CompletedEvent where
  scopeName : String
  inclusive : ℚ
  exclusive : ℚ
  threadId : Nat
  frame : Option Int
  startT : ℚ
  endT : ℚ
deriving DecidableEq

/-- A free-text note, as appended to `PerfTimer.annotations`:
the tuple `(txt, threadId, frame, now)`. -/
structure NoteEvent where
  txt : String
  threadId : Nat
  frame : Option Int
  time : ℚ
deriving DecidableEq

/-- The fields of a live `PerfTimer` object (also used by the replayer's timer
objects): `blockName`, `scopeName`, `threadId`, `frame`, `incstart`,
`excstart`, `exclusive`, `inclusive`. -/
structure Timer where
  blockName : String
  scopeName : String
  threadId : Nat
  frame : Option Int
  incstart : ℚ
  excstart : ℚ
  exclusive : ℚ
  inclusive : ℚ
deriving DecidableEq

/-- Single-thread live state: this thread's `perfStack.stack`, plus the shared
`perfQueue` and `annotations` queues. -/
structure LiveState where
  stack : List Timer
  queue : List CompletedEvent
  notes : List NoteEvent
deriving DecidableEq

def initLiveState : LiveState := ⟨[], [], []⟩

/-- `PerfTimer.__enter__` on one thread.  `collecting` is the module-level
`_collecting` gate.  If the stack is non-empty, the parent's exclusive
accumulator grows by `now - parent.excstart` and the new timer's scope name is
`parent.scopeName + "::" + blockName`; otherwise the scope name is just
`blockName`.  The new timer starts with `incstart = excstart = now` and a zero
exclusive accumulator. -/
def perfEnter (collecting : Bool) (blockName : String) (frame : Option Int)
    (tid : Nat) (now : ℚ) (st : LiveState) : LiveState :=
  if collecting then
    match st.stack with
    | prev :: rest =>
        { st with stack :=
            ⟨blockName, prev.scopeName ++ "::" ++ blockName, tid, frame, now, now, 0, 0⟩ ::
              { prev with exclusive := prev.exclusive + (now - prev.excstart) } :: rest }
    | [] =>
        { st with stack := [⟨blockName, blockName, tid, frame, now, now, 0, 0⟩] }
  else st

/-- `PerfTimer.__exit__` on one thread.  Under the context-manager protocol the
exiting timer is the top of a non-empty stack; the timer below it (if any) gets
`excstart := now`, the top's exclusive accumulator grows by
`now - excstart`, its inclusive duration is `now - incstart`, and one
`CompletedEvent` is appended to `perfQueue`.  (The empty-stack case is
unreachable under the context-manager protocol and leaves the state
unchanged.) -/
def perfExit (collecting : Bool) (now : ℚ) (st : LiveState) : LiveState :=
  if collecting then
    match st.stack with
    | timer :: rest =>
        let rest2 : List Timer :=
          match rest with
          | prev :: rs => { prev with excstart := now } :: rs
          | [] => []
        { st with
            stack := rest2,
            queue := st.queue ++
              [⟨timer.scopeName, now - timer.incstart, timer.exclusive + (now - timer.excstart),
                timer.threadId, timer.frame, timer.incstart, now⟩] }
    | [] => st
  else st

/-- `PerfTimer.Note`. -/
def perfNote (collecting : Bool) (txt : String) (frame : Option Int)
    (tid : Nat) (now : ℚ) (st : LiveState) : LiveState :=
  if collecting then
    { st with notes := st.notes ++ [⟨txt, tid, frame, now⟩] }
  else st

/-- One single-thread instrumentation call together with its clock reading. -/
inductive LiveOp where
  | enter (blockName : String) (now : ℚ)
  | exitAt (now : ℚ)
deriving DecidableEq

/-- The clock reading observed by a call. -/
def LiveOp.time : LiveOp → ℚ
  | .enter _ t => t
  | .exitAt t => t

def applyOp (collecting : Bool) (tid : Nat) (frame : Option Int)
    (st : LiveState) : LiveOp → LiveState
  | .enter n now => perfEnter collecting n frame tid now st
  | .exitAt now => perfExit collecting now st

/-- Run a sequence of live calls on one thread. -/
def runOps (collecting : Bool) (tid : Nat) (frame : Option Int) :
    List LiveOp → LiveState → LiveState
  | [], st => st
  | op :: rest, st => runOps collecting tid frame rest (applyOp collecting tid frame st op)

mutual
/-- A well-nested single-thread region: block name, clock reading at enter,
clock reading at exit, and the nested child regions. -/
inductive PTree where
  | node (name : String) (enterT exitT : ℚ) (children : PForest)
/-- A sequence of sibling regions. -/
inductive PForest where
  | nil
  | cons (t : PTree) (rest : PForest)
end

def PTree.name : PTree → String
  | .node n _ _ _ => n

def PTree.enterT : PTree → ℚ
  | .node _ s _ _ => s

def PTree.exitT : PTree → ℚ
  | .node _ _ e _ => e

mutual
/-- The sequence of `__enter__`/`__exit__` calls a well-nested region makes. -/
def PTree.events : PTree → List LiveOp
  | .node n s e cs => .enter n s :: (PForest.events cs ++ [.exitAt e])
def PForest.events : PForest → List LiveOp
  | .nil => []
  | .cons t f => PTree.events t ++ PForest.events f
end

mutual
/-- The clock readings of a region's calls, in order. -/
def PTree.stamps : PTree → List ℚ
  | .node _ s e cs => s :: (PForest.stamps cs ++ [e])
def PForest.stamps : PForest → List ℚ
  | .nil => []
  | .cons t f => PTree.stamps t ++ PForest.stamps f
end

/-- Sum of the enter-to-exit spans of the trees of a forest. -/
def PForest.spanSum : PForest → ℚ
  | .nil => 0
  | .cons t f => (t.exitT - t.enterT) + PForest.spanSum f

def PForest.toList : PForest → List PTree
  | .nil => []
  | .cons t f => t :: PForest.toList f

/-- Net growth of a parent's exclusive accumulator while its children run,
starting from exclusive-start reading `x`. -/
def PForest.exclDelta : ℚ → PForest → ℚ
  | _, .nil => 0
  | x, .cons t f => (t.enterT - x) + PForest.exclDelta t.exitT f

/-- The parent's exclusive-start reading after its children have run. -/
def PForest.stopT : ℚ → PForest → ℚ
  | x, .nil => x
  | _, .cons t f => PForest.stopT t.exitT f

mutual
/-- The completed events the live machine emits while processing `t`, whose own
scope name is `scope`: children first, then the region itself. -/
def PTree.emits (tid : Nat) (fr : Option Int) (scope : String) : PTree → List CompletedEvent
  | .node _ s e cs =>
      PForest.emits tid fr scope cs ++
        [⟨scope, e - s, (e - s) - PForest.spanSum cs, tid, fr, s, e⟩]
/-- The completed events emitted while processing the children of a region
whose scope name is `parentScope`. -/
def PForest.emits (tid : Nat) (fr : Option Int) (parentScope : String) :
    PForest → List CompletedEvent
  | .nil => []
  | .cons t f =>
      PTree.emits tid fr (parentScope ++ "::" ++ t.name) t ++ PForest.emits tid fr parentScope f
end

/-- The region sequence Enter(A)@100, Enter(B)@120, Exit(B)@180, Exit(A)@220. -/
def demoTree : PTree := .node "A" 100 220 (.cons (.node "B" 120 180 .nil) .nil)

/-- The inclusive duration of the completed event the live machine emits for
the root region of `t`, running `t` alone from the empty state. -/
def rootInclusive (tid : Nat) (fr : Option Int) (t : PTree) : ℚ :=
  ((runOps true tid fr (PTree.events t) initLiveState).queue.getLastD
    ⟨"", 0, 0, 0, none, 0, 0⟩).inclusive

/-- `monoFromB x l`: `x` followed by the readings in `l` is non-decreasing. -/
def monoFromB : ℚ → List ℚ → Bool
  | _, [] => true
  | x, y :: ys => decide (x ≤ y) && monoFromB y ys

/-- The readings in `l` are non-decreasing. -/
def monoTimesB : List ℚ → Bool
  | [] => true
  | x :: xs => monoFromB x xs

/-! ### The binary event-log codec -/

/-- A wire-level log record `[operation, threadId, frameId, timestamp, name]`,
with the name as its list of byte values. -/
structure RawLogEvent where
  op : Int
  threadId : Nat
  frameId : Int
  timestamp : Nat
  name : List Nat
deriving DecidableEq

/-- `w` bytes, little endian, of the unsigned value `v` (as `struct.pack`
produces for an in-range value). -/
def natLE : Nat → Nat → List Nat
  | 0, _ => []
  | w + 1, v => v % 256 :: natLE w (v / 256)

/-- The unsigned value of a little-endian byte list. -/
def natLEval : List Nat → Nat
  | [] => 0
  | b :: rest => b + 256 * natLEval rest

/-- `w` bytes, little endian, of the signed value `v` (two's complement). -/
def intLE (w : Nat) (v : Int) : List Nat :=
  natLE w (v % ((2 : Int) ^ (8 * w))).toNat

/-- The signed value of a little-endian byte list (two's complement), as
`struct.unpack` gives for the `b` and `i` formats. -/
def decodeSigned (bytes : List Nat) : Int :=
  if natLEval bytes < 2 ^ (8 * bytes.length - 1) then (natLEval bytes : Int)
  else (natLEval bytes : Int) - 2 ^ (8 * bytes.length)

/-- `f.read(n)` followed by a `struct.unpack` that needs exactly `n` bytes:
fails when fewer than `n` bytes remain. -/
def takeBytes (n : Nat) (s : List Nat) : Option (List Nat × List Nat) :=
  if n ≤ s.length then some (s.take n, s.drop n) else none

/-- `name.replace(b"::", b".")`: replace occurrences of the byte pair `58 58`
(left to right, non-overlapping) by the byte `46`. -/
def replaceSep : List Nat → List Nat
  | [] => []
  | [b] => [b]
  | b :: c :: rest =>
      if b = 58 ∧ c = 58 then 46 :: replaceSep rest
      else b :: replaceSep (c :: rest)

/-- Does the byte list contain the pair `58 58` (the ASCII bytes of `::`)? -/
def hasSep : List Nat → Bool
  | [] => false
  | [_] => false
  | b :: c :: rest => (decide (b = 58) && decide (c = 58)) || hasSep (c :: rest)

/-- One record of the binary writer:
`struct.pack("<bQiQH", op, threadId, frameId, timestamp, len(name))`
followed by the ASCII bytes of the name. -/
def encodeRecord (ev : RawLogEvent) : List Nat :=
  intLE 1 ev.op ++ natLE 8 ev.threadId ++ intLE 4 ev.frameId ++
    natLE 8 ev.timestamp ++ natLE 2 ev.name.length ++ ev.name

def encodeRecords : List RawLogEvent → List Nat
  | [] => []
  | ev :: rest => encodeRecord ev ++ encodeRecords rest

/-- The binary writer: magic `0xFA57` (4 bytes LE), record count (4 bytes LE),
then the records. -/
def encodeLog (evs : List RawLogEvent) : List Nat :=
  natLE 4 0xFA57 ++ natLE 4 evs.length ++ encodeRecords evs

/-- One record of the binary reader: unpack the 23-byte fixed header, read the
declared number of name bytes (`f.read` returns what is available, without
error), and replace `::` by `.` in the name. -/
def decodeRecord (s : List Nat) : Option (RawLogEvent × List Nat) := do
  let (opB, s1) ← takeBytes 1 s
  let (thB, s2) ← takeBytes 8 s1
  let (frB, s3) ← takeBytes 4 s2
  let (tsB, s4) ← takeBytes 8 s3
  let (lnB, s5) ← takeBytes 2 s4
  let nm := s5.take (natLEval lnB)
  some (⟨decodeSigned opB, natLEval thB, decodeSigned frB, natLEval tsB, replaceSep nm⟩,
    s5.drop (natLEval lnB))

def decodeRecords : Nat → List Nat → Option (List RawLogEvent)
  | 0, _ => some []
  | n + 1, s => do
      let (ev, rest) ← decodeRecord s
      let evs ← decodeRecords n rest
      some (ev :: evs)

/-- The binary reader: check the `0xFA57` magic, read the record count, decode
that many records.  (On a magic mismatch the source falls back to JSON parsing
of the same file, which is outside the binary round-trip claims; that branch is
modelled as `none`.) -/
def decodeLog (s : List Nat) : Option (List RawLogEvent) := do
  let (magic, rest) ← takeBytes 4 s
  if natLEval magic = 0xFA57 then
    let (cnt, rest2) ← takeBytes 4 rest
    decodeRecords (natLEval cnt) rest2
  else none

/-- A record whose integer fields fit the declared `<bQiQH` field widths and
whose name is ASCII and fits the 2-byte length field. -/
def validEvent (ev : RawLogEvent) : Prop :=
  -128 ≤ ev.op ∧ ev.op < 128 ∧
    ev.threadId < 2 ^ 64 ∧
    -(2 ^ 31) ≤ ev.frameId ∧ ev.frameId < 2 ^ 31 ∧
    ev.timestamp < 2 ^ 64 ∧
    ev.name.length < 2 ^ 16 ∧ ∀ b ∈ ev.name, b < 128

instance (ev : RawLogEvent) : Decidable (validEvent ev) := by
  unfold validEvent
  infer_instance

/-- What one reader pass actually returns for a written record: the same
fields, with `::` replaced by `.` in the name. -/
def cleanEvent (ev : RawLogEvent) : RawLogEvent :=
  { ev with name := replaceSep ev.name }

/-- A valid event whose ASCII name contains `::`. -/
def cexSepEvent : RawLogEvent := ⟨0, 0, 0, 0, [97, 58, 58, 98]⟩

/-! ### Aggregation (`_printPerfReport`) -/

/-- One aggregation entry, the Python list
`[Inclusive, Exclusive, Count, MaxInc, MaxExc, MinInc, MinExc]`. -/
structure AggStats where
  inclusive : ℚ
  exclusive : ℚ
  count : Nat
  maxInc : ℚ
  maxExc : ℚ
  minInc : ℚ
  minExc : ℚ
deriving DecidableEq

/-- The `setdefault` initializer `[0,0,0,0,0,999999999,999999999]`. -/
def initStats : AggStats := ⟨0, 0, 0, 0, 0, 999999999, 999999999⟩

/-- Fold one event's inclusive/exclusive durations into an entry. -/
def addToStats (s : AggStats) (inc exc : ℚ) : AggStats :=
  ⟨s.inclusive + inc, s.exclusive + exc, s.count + 1,
    max inc s.maxInc, max exc s.maxExc, min inc s.minInc, min exc s.minExc⟩

/-- Association-list lookup (Python `dict` access). -/
def alistFind {κ α : Type} [DecidableEq κ] : List (κ × α) → κ → Option α
  | [], _ => none
  | (k, v) :: rest, key => if k = key then some v else alistFind rest key

/-- Association-list assignment, appending new keys at the end (Python `dict`
insertion order). -/
def alistSet {κ α : Type} [DecidableEq κ] : List (κ × α) → κ → α → List (κ × α)
  | [], key, v => [(key, v)]
  | (k, w) :: rest, key, v =>
      if k = key then (k, v) :: rest else (k, w) :: alistSet rest key v

/-- `report.setdefault(key, [0,0,0,0,0,999999999,999999999])` followed by the
seven in-place updates for one event. -/
def reportInsert : List (String × AggStats) → String → ℚ → ℚ → List (String × AggStats)
  | [], key, inc, exc => [(key, addToStats initStats inc exc)]
  | (k, s) :: rest, key, inc, exc =>
      if k = key then (k, addToStats s inc exc) :: rest
      else (k, s) :: reportInsert rest key inc exc

def reportFind : List (String × AggStats) → String → Option AggStats
  | [], _ => none
  | (k, s) :: rest, key => if k = key then some s else reportFind rest key

/-- `threadreports.setdefault(threadId, {})` followed by the per-key update. -/
def threadReportsInsert :
    List (Nat × List (String × AggStats)) → Nat → String → ℚ → ℚ →
      List (Nat × List (String × AggStats))
  | [], tid, key, inc, exc => [(tid, reportInsert [] key inc exc)]
  | (t, rep) :: rest, tid, key, inc, exc =>
      if t = tid then (t, reportInsert rep key inc exc) :: rest
      else (t, rep) :: threadReportsInsert rest tid key inc exc

/-- The suffix of `revChars` (a scope name reversed) before the first `::`
seen; reversing the result gives `scopeName.rsplit("::", 1)[-1]`. -/
def afterLastSepRev : List Char → List Char
  | [] => []
  | [c] => [c]
  | a :: b :: rest =>
      if a = ':' ∧ b = ':' then [] else a :: afterLastSepRev (b :: rest)

/-- `scopeName.rsplit("::", 1)`'s last element: the substring after the
rightmost `::`, or the whole string when there is none. -/
def lastComponent (s : String) : String :=
  String.mk (afterLastSepRev s.data.reverse).reverse

/-- The grouping key used by the aggregation loop: the terminal component in
FLAT mode (`reportMode = 1`), the full scope name otherwise. -/
def reportKey (reportMode : Nat) (scopeName : String) : String :=
  if reportMode = 1 then lastComponent scopeName else scopeName

/-- The aggregation loop of `_printPerfReport`: drain the event queue, folding
each event into `fullreport` and into its thread's entry of `threadreports`. -/
def buildReportsAux (reportMode : Nat) :
    List CompletedEvent →
      List (String × AggStats) × List (Nat × List (String × AggStats)) →
      List (String × AggStats) × List (Nat × List (String × AggStats))
  | [], acc => acc
  | ev :: rest, acc =>
      let key := reportKey reportMode ev.scopeName
      buildReportsAux reportMode rest
        (reportInsert acc.1 key ev.inclusive ev.exclusive,
          threadReportsInsert acc.2 ev.threadId key ev.inclusive ev.exclusive)

def buildReports (reportMode : Nat) (events : List CompletedEvent) :
    List (String × AggStats) × List (Nat × List (String × AggStats)) :=
  buildReportsAux reportMode events ([], [])

/-- The control flow of `_printPerfReport` around the per-thread reports: after
the aggregation loop, an empty `fullreport` returns early; in HTML mode the
invoking thread's report is looked up behind a membership test; in TREE/FLAT
mode `threadreports[threading.current_thread().ident]` is an unguarded
dictionary access, raising `KeyError` (modelled as `Except.error ()`) when the
key is absent. -/
def printOutcome (reportMode : Nat) (curTid : Nat) (events : List CompletedEvent) :
    Except Unit Unit :=
  if (buildReports reportMode events).1 = [] then .ok ()
  else if reportMode = 2 then .ok ()
  else
    match alistFind (buildReports reportMode events).2 curTid with
    | some _ => .ok ()
    | none => .error ()

/-! ### The perfQueue drain loop of `PrintPerfReport` (minimum-frame-time filter) -/

/-- The accumulators of the drain loop (the `annotationsByFrame` resets do not
matter to any claim and are omitted). -/
structure DrainAcc where
  elementsByFrame : List (Option Int × List CompletedEvent)
  earliestByFrame : List (Option Int × ℚ)
  latestByFrame : List (Option Int × ℚ)
  allFramesQueue : List CompletedEvent
deriving DecidableEq

def initDrainAcc : DrainAcc := ⟨[], [], [], []⟩

/-- Keep one event: `elementsByFrame.setdefault(frame, deque()).append(pair)`
and `allFramesQueue.append(pair)`. -/
def drainKeep (acc : DrainAcc) (ev : CompletedEvent) : DrainAcc :=
  { acc with
      elementsByFrame :=
        alistSet acc.elementsByFrame ev.frame
          ((alistFind acc.elementsByFrame ev.frame).getD [] ++ [ev]),
      allFramesQueue := acc.allFramesQueue ++ [ev] }

/-- One iteration of the perfQueue drain loop in `PrintPerfReport`.  `duration`
models the function-local Python variable of that name at the point of the
minimum-frame-time test: it is assigned only *after* this loop (at
`duration = latestByFrame[key] - earliestByFrame[key]`), so while the loop runs
it is unbound (`none`) and evaluating `duration * 1000` raises
`UnboundLocalError`, modelled as `Except.error ()`.  (The source keeps
`earliestByFrame` and `latestByFrame` key-synchronized, testing membership in
the former only; the paired match below reflects that.) -/
def drainStep (minFrameTime : Option ℚ) (duration : Option ℚ) (acc : DrainAcc)
    (ev : CompletedEvent) : Except Unit DrainAcc :=
  let acc1 : DrainAcc :=
    match alistFind acc.earliestByFrame ev.frame, alistFind acc.latestByFrame ev.frame with
    | some e0, some l0 =>
        { acc with
            earliestByFrame := alistSet acc.earliestByFrame ev.frame (min e0 ev.startT),
            latestByFrame := alistSet acc.latestByFrame ev.frame (max l0 ev.endT) }
    | _, _ =>
        { acc with
            earliestByFrame := alistSet acc.earliestByFrame ev.frame ev.startT,
            latestByFrame := alistSet acc.latestByFrame ev.frame ev.endT }
  match minFrameTime with
  | some mft =>
      match duration with
      | none => .error ()
      | some d => if d * 1000 < mft then .ok acc1 else .ok (drainKeep acc1 ev)
  | none => .ok (drainKeep acc1 ev)

def drainLoop (minFrameTime duration : Option ℚ) :
    List CompletedEvent → DrainAcc → Except Unit DrainAcc
  | [], acc => .ok acc
  | ev :: rest, acc =>
      match drainStep minFrameTime duration acc ev with
      | .error e => .error e
      | .ok acc2 => drainLoop minFrameTime duration rest acc2

/-- The whole drain loop, entered with the local `duration` still unbound. -/
def printReportDrain (minFrameTime : Option ℚ) (events : List CompletedEvent) :
    Except Unit DrainAcc :=
  drainLoop minFrameTime none events initDrainAcc

/-! ### The replay loop of the `__main__` block -/

/-- One replayed log record `[operation, threadId, frameId, timestamp, name]`
with the nanosecond timestamp still unconverted and the name already an ASCII
string. -/
structure ReplayRecord where
  op : Int
  threadId : Nat
  frameId : Int
  timestampNs : Nat
  name : String
deriving DecidableEq

/-- The replayer's state: `stacks` (threadId to timer stack; `none` models an
absent dictionary key), `lastEnd` (threadId and frameId to pending boundary;
absent keys and stored `None` coincide, as the source only ever tests
`... .get(frameId, None) is not None`), plus the shared queues. -/
structure ReplayState where
  threadStacks : Nat → Option (List Timer)
  lastEnd : Nat → Int → Option ℚ
  perfQueue : List CompletedEvent
  notes : List NoteEvent

def initReplayState : ReplayState := ⟨fun _ => none, fun _ _ => none, [], []⟩

/-- The body of the replay loop for one record.  The timestamp is divided by
`1000 * 1000 * 1000` first.  On Enter, a missing or empty stack takes the
`except` branch: a pending `lastEnd` boundary for this thread+frame, when
present, is cleared and bridged by an `<unknown>` event before the new stack
`[timer]` is installed.  On Exit, `timer = stacks[threadId][-1]` runs *outside*
any `try`, so a missing stack raises `KeyError` and an empty one `IndexError`
(both modelled `Except.error ()`); an Exit that pops the only element records
its timestamp in `lastEnd[threadId][frameId]`.  An unknown operation tag exits
the program. -/
def processRecord (st : ReplayState) (r : ReplayRecord) : Except Unit ReplayState :=
  let ts : ℚ := (r.timestampNs : ℚ) / (1000 * 1000 * 1000)
  if r.op = 0 then
    let frameOpt : Option Int := if 0 ≤ r.frameId then some r.frameId else none
    match st.threadStacks r.threadId with
    | some (prev :: rest) =>
        let timer : Timer :=
          ⟨r.name, prev.scopeName ++ "::" ++ r.name, r.threadId, frameOpt, ts, ts, 0, 0⟩
        let prev2 : Timer := { prev with exclusive := prev.exclusive + (ts - prev.excstart) }
        .ok { st with threadStacks := fun t =>
                if t = r.threadId then some (timer :: prev2 :: rest) else st.threadStacks t }
    | some [] =>
        let timer : Timer := ⟨r.name, r.name, r.threadId, frameOpt, ts, ts, 0, 0⟩
        match st.lastEnd r.threadId r.frameId with
        | some b =>
            .ok { st with
                threadStacks := fun t => if t = r.threadId then some [timer] else st.threadStacks t,
                lastEnd := fun t f =>
                  if t = r.threadId ∧ f = r.frameId then none else st.lastEnd t f,
                perfQueue := st.perfQueue ++
                  [⟨"<unknown>", ts - b, ts - b, r.threadId, some r.frameId, b, ts⟩] }
        | none =>
            .ok { st with
                threadStacks := fun t => if t = r.threadId then some [timer] else st.threadStacks t }
    | none =>
        let timer : Timer := ⟨r.name, r.name, r.threadId, frameOpt, ts, ts, 0, 0⟩
        match st.lastEnd r.threadId r.frameId with
        | some b =>
            .ok { st with
                threadStacks := fun t => if t = r.threadId then some [timer] else st.threadStacks t,
                lastEnd := fun t f =>
                  if t = r.threadId ∧ f = r.frameId then none else st.lastEnd t f,
                perfQueue := st.perfQueue ++
                  [⟨"<unknown>", ts - b, ts - b, r.threadId, some r.frameId, b, ts⟩] }
        | none =>
            .ok { st with
                threadStacks := fun t => if t = r.threadId then some [timer] else st.threadStacks t }
  else if r.op = 1 then
    match st.threadStacks r.threadId with
    | some (timer :: rest) =>
        let emitted : CompletedEvent :=
          ⟨timer.scopeName, ts - timer.incstart, timer.exclusive + (ts - timer.excstart),
            timer.threadId, timer.frame, timer.incstart, ts⟩
        match rest with
        | prev :: rs =>
            .ok { st with
                threadStacks := fun t =>
                  if t = r.threadId then some ({ prev with excstart := ts } :: rs)
                  else st.threadStacks t,
                perfQueue := st.perfQueue ++ [emitted] }
        | [] =>
            .ok { st with
                threadStacks := fun t => if t = r.threadId then some [] else st.threadStacks t,
                lastEnd := fun t f =>
                  if t = r.threadId ∧ f = r.frameId then some ts else st.lastEnd t f,
                perfQueue := st.perfQueue ++ [emitted] }
    | some [] => .error ()
    | none => .error ()
  else if r.op = 2 then
    .ok { st with notes := st.notes ++ [⟨r.name, r.threadId, some r.frameId, ts⟩] }
  else .error ()

def replayRecords : List ReplayRecord → ReplayState → Except Unit ReplayState
  | [], st => .ok st
  | r :: rest, st =>
      match processRecord st r with
      | .error e => .error e
      | .ok st2 => replayRecords rest st2

/-- `perfQueue` of a replay outcome (empty when the replay failed). -/
def replayQueueOf : Except Unit ReplayState → List CompletedEvent
  | .ok st => st.perfQueue
  | .error _ => []

/-- Did the replay succeed? -/
def replayIsOk : Except Unit ReplayState → Bool
  | .ok _ => true
  | .error _ => false

/-- A thread's stack in a replay outcome. -/
def replayStackOf (t : Nat) : Except Unit ReplayState → Option (List Timer)
  | .ok st => st.threadStacks t
  | .error _ => none

/-- A thread+frame pending boundary in a replay outcome. -/
def replayLastEndOf (t : Nat) (f : Int) : Except Unit ReplayState → Option ℚ
  | .ok st => st.lastEnd t f
  | .error _ => none

/-- A replay state in which thread 7 has an empty stack and a pending boundary
of 100 (seconds) for frame 0 — the situation after replaying
`Enter(7, 0, "A", t=50s)` then `Exit(7, 0, t=100s)`, with the queue cleared. -/
def pendingState : ReplayState :=
  ⟨fun t => if t = 7 then some [] else none,
    fun t f => if t = 7 ∧ f = 0 then some 100 else none, [], []⟩

/-- A second such state (thread 3, frame 2, boundary 10 seconds). -/
def pendingState2 : ReplayState :=
  ⟨fun t => if t = 3 then some [] else none,
    fun t f => if t = 3 ∧ f = 2 then some 10 else none, [], []⟩

/-- The stream Enter(A)@50s, Exit@100s, Enter(X)@150s, Exit@200s on thread 7,
frame 0, with nanosecond timestamps. -/
def demoReplayRecords : List ReplayRecord :=
  [⟨0, 7, 0, 50000000000, "A"⟩, ⟨1, 7, 0, 100000000000, ""⟩,
    ⟨0, 7, 0, 150000000000, "X"⟩, ⟨1, 7, 0, 200000000000, ""⟩]

/-! ### Helper lemmas -/

theorem getLastD_app {α : Type} (l : List α) (a d : α) : (l ++ [a]).getLastD d = a :=
  List.getLastD_concat d a l

theorem getLast?_app {α : Type} (l : List α) (a : α) : (l ++ [a]).getLast? = some a :=
  List.getLast?_concat l

theorem runOps_append (c : Bool) (tid : Nat) (fr : Option Int) :
    ∀ (l1 l2 : List LiveOp) (st : LiveState),
      runOps c tid fr (l1 ++ l2) st = runOps c tid fr l2 (runOps c tid fr l1 st)
  | [], _, _ => rfl
  | op :: rest, l2, st => by
      simp only [List.cons_append, runOps]
      exact runOps_append c tid fr rest l2 (applyOp c tid fr st op)

theorem exclDelta_eq : ∀ (f : PForest) (x : ℚ),
    PForest.exclDelta x f = PForest.stopT x f - x - PForest.spanSum f
  | .nil, x => by simp [PForest.exclDelta, PForest.stopT, PForest.spanSum]
  | .cons t f, x => by
      simp only [PForest.exclDelta, PForest.stopT, PForest.spanSum]
      rw [exclDelta_eq f t.exitT]
      ring

mutual

theorem runOps_tree :
    ∀ (t : PTree) (tid : Nat) (fr : Option Int) (p : Timer) (rest : List Timer)
      (q : List CompletedEvent) (ns : List NoteEvent),
      runOps true tid fr (PTree.events t) ⟨p :: rest, q, ns⟩ =
        ⟨{ p with
            exclusive := p.exclusive + (t.enterT - p.excstart)
            excstart := t.exitT } :: rest,
          q ++ PTree.emits tid fr (p.scopeName ++ "::" ++ t.name) t, ns⟩
  | .node n s e cs, tid, fr, p, rest, q, ns => by
      simp only [PTree.events, runOps, applyOp, perfEnter, if_true]
      rw [runOps_append]
      rw [runOps_forest cs tid fr ⟨n, p.scopeName ++ "::" ++ n, tid, fr, s, s, 0, 0⟩
        ({ p with exclusive := p.exclusive + (s - p.excstart) } :: rest) q ns]
      simp only [runOps, applyOp, perfExit, if_true, PTree.emits, PTree.enterT, PTree.exitT,
        PTree.name]
      rw [exclDelta_eq]
      simp only [List.append_assoc, LiveState.mk.injEq, List.cons.injEq, Timer.mk.injEq,
        List.append_right_inj, CompletedEvent.mk.injEq, and_true, true_and]
      ring

theorem runOps_forest :
    ∀ (f : PForest) (tid : Nat) (fr : Option Int) (p : Timer) (rest : List Timer)
      (q : List CompletedEvent) (ns : List NoteEvent),
      runOps true tid fr (PForest.events f) ⟨p :: rest, q, ns⟩ =
        ⟨{ p with
            exclusive := p.exclusive + PForest.exclDelta p.excstart f
            excstart := PForest.stopT p.excstart f } :: rest,
          q ++ PForest.emits tid fr p.scopeName f, ns⟩
  | .nil, tid, fr, p, rest, q, ns => by
      simp [PForest.events, runOps, PForest.exclDelta, PForest.stopT, PForest.emits]
  | .cons t f, tid, fr, p, rest, q, ns => by
      simp only [PForest.events]
      rw [runOps_append]
      rw [runOps_tree t tid fr p rest q ns]
      rw [runOps_forest f tid fr _ rest _ ns]
      simp only [PForest.exclDelta, PForest.stopT, PForest.emits, List.append_assoc,
        LiveState.mk.injEq, List.cons.injEq, Timer.mk.injEq, List.append_right_inj,
        and_true, true_and]
      ring

end

theorem runOps_tree_root :
    ∀ (t : PTree) (tid : Nat) (fr : Option Int) (q : List CompletedEvent)
      (ns : List NoteEvent),
      runOps true tid fr (PTree.events t) ⟨[], q, ns⟩ =
        ⟨[], q ++ PTree.emits tid fr t.name t, ns⟩
  | .node n s e cs, tid, fr, q, ns => by
      simp only [PTree.events, runOps, applyOp, perfEnter, if_true]
      rw [runOps_append]
      rw [runOps_forest cs tid fr ⟨n, n, tid, fr, s, s, 0, 0⟩ [] q ns]
      simp only [runOps, applyOp, perfExit, if_true, PTree.emits, PTree.name]
      rw [exclDelta_eq]
      simp only [List.append_assoc, LiveState.mk.injEq, List.cons.injEq, Timer.mk.injEq,
        List.append_right_inj, CompletedEvent.mk.injEq, and_true, true_and]
      ring

theorem spanSum_toList : ∀ (f : PForest),
    ((PForest.toList f).map fun c => c.exitT - c.enterT).sum = PForest.spanSum f
  | .nil => rfl
  | .cons t f => by
      simp only [PForest.toList, List.map_cons, List.sum_cons, PForest.spanSum,
        spanSum_toList f]

theorem rootInclusive_eq (tid : Nat) (fr : Option Int) :
    ∀ (t : PTree), rootInclusive tid fr t = t.exitT - t.enterT
  | .node n s e cs => by
      unfold rootInclusive
      rw [show initLiveState = (⟨[], [], []⟩ : LiveState) from rfl, runOps_tree_root]
      simp only [PTree.emits, PTree.name, PTree.enterT, PTree.exitT, List.nil_append,
        getLastD_app]

/-- The queue produced by the demo sequence, evaluated. -/
theorem demo_queue_eq :
    (runOps true 0 none (PTree.events demoTree) initLiveState).queue =
      [⟨"A::B", 60, 60, 0, none, 120, 180⟩, ⟨"A", 120, 60, 0, none, 100, 220⟩] := by
  norm_num [demoTree, PTree.events, PForest.events, runOps, applyOp, perfEnter, perfExit,
    initLiveState]
  rfl

/-! ### Claim C1 -/

/-- Claim C1: for the live sequence Enter(A)@100, Enter(B)@120, Exit(B)@180,
Exit(A)@220 the scope stack emits B with inclusive 60 and exclusive 60, then A
with inclusive 120 and exclusive 60; and in general the completed event of any
region has inclusive duration `exit - enter` and exclusive duration equal to
that inclusive duration minus the sum of the inclusive durations of the events
the machine emits for its direct children. -/
theorem nested_scope_durations :
    (runOps true 0 none (PTree.events demoTree) initLiveState).queue =
        [⟨"A::B", 60, 60, 0, none, 120, 180⟩, ⟨"A", 120, 60, 0, none, 100, 220⟩] ∧
      ∀ (n : String) (s e : ℚ) (cs : PForest) (tid : Nat) (fr : Option Int),
        (runOps true tid fr (PTree.events (PTree.node n s e cs))
            initLiveState).queue.getLast? =
          some ⟨n, e - s, (e - s) - ((PForest.toList cs).map (rootInclusive tid fr)).sum,
            tid, fr, s, e⟩ := by
  constructor
  · exact demo_queue_eq
  · intro n s e cs tid fr
    have h1 : ((PForest.toList cs).map (rootInclusive tid fr)).sum = PForest.spanSum cs := by
      rw [show rootInclusive tid fr = fun c => c.exitT - c.enterT from
        funext (rootInclusive_eq tid fr)]
      exact spanSum_toList cs
    rw [h1]
    rw [show initLiveState = (⟨[], [], []⟩ : LiveState) from rfl, runOps_tree_root]
    simp only [PTree.emits, PTree.name, List.nil_append]
    exact getLast?_app _ _

/-! ### Claim C6 -/

mutual

theorem events_map_time_tree : ∀ (t : PTree),
    (PTree.events t).map LiveOp.time = PTree.stamps t
  | .node n s e cs => by
      simp only [PTree.events, PTree.stamps, List.map_cons, List.map_append, List.map_cons,
        List.map_nil, LiveOp.time, events_map_time_forest cs]

theorem events_map_time_forest : ∀ (f : PForest),
    (PForest.events f).map LiveOp.time = PForest.stamps f
  | .nil => rfl
  | .cons t f => by
      simp only [PForest.events, PForest.stamps, List.map_append, events_map_time_tree t,
        events_map_time_forest f]

end

theorem monoFromB_append : ∀ (l1 l2 : List ℚ) (x : ℚ),
    monoFromB x (l1 ++ l2) = (monoFromB x l1 && monoFromB (l1.getLastD x) l2)
  | [], l2, x => by simp [monoFromB]
  | y :: ys, l2, x => by
      simp only [List.cons_append, monoFromB, List.append_eq, monoFromB_append ys l2 y,
        List.getLastD_cons, Bool.and_assoc]

theorem stamps_getLastD : ∀ (t : PTree) (x : ℚ), (PTree.stamps t).getLastD x = t.exitT
  | .node n s e cs, x => by
      simp only [PTree.stamps, PTree.exitT, List.getLastD_cons]
      exact getLastD_app _ e s

mutual

theorem tree_bounds : ∀ (t : PTree) (lo : ℚ), monoFromB lo (PTree.stamps t) = true →
    lo ≤ t.enterT ∧ t.enterT ≤ t.exitT ∧
      ∀ (tid : Nat) (fr : Option Int) (scope : String) (ev : CompletedEvent),
        ev ∈ PTree.emits tid fr scope t → 0 ≤ ev.exclusive ∧ ev.exclusive ≤ ev.inclusive
  | .node n s e cs, lo, h => by
      simp only [PTree.stamps, monoFromB, Bool.and_eq_true, decide_eq_true_eq] at h
      obtain ⟨hlo, hrest⟩ := h
      obtain ⟨hnn, hspan, hev⟩ := forest_bounds cs s e hrest
      simp only [PTree.enterT, PTree.exitT, PTree.emits]
      refine ⟨hlo, by linarith, ?_⟩
      intro tid fr scope ev hm
      simp only [List.mem_append, List.mem_singleton] at hm
      rcases hm with hm | rfl
      · exact hev tid fr scope ev hm
      · constructor
        · show (0 : ℚ) ≤ (e - s) - PForest.spanSum cs
          linarith
        · show (e - s) - PForest.spanSum cs ≤ e - s
          linarith

theorem forest_bounds : ∀ (f : PForest) (lo hi : ℚ),
    monoFromB lo (PForest.stamps f ++ [hi]) = true →
    0 ≤ PForest.spanSum f ∧ PForest.spanSum f ≤ hi - lo ∧
      ∀ (tid : Nat) (fr : Option Int) (pre : String) (ev : CompletedEvent),
        ev ∈ PForest.emits tid fr pre f → 0 ≤ ev.exclusive ∧ ev.exclusive ≤ ev.inclusive
  | .nil, lo, hi, h => by
      have hlh : lo ≤ hi := by
        simpa [PForest.stamps, monoFromB] using h
      simp only [PForest.spanSum, PForest.emits]
      refine ⟨le_refl 0, by linarith, ?_⟩
      intro tid fr pre ev hm
      exact absurd hm (List.not_mem_nil ev)
  | .cons t f, lo, hi, h => by
      rw [show PForest.stamps (PForest.cons t f) = PTree.stamps t ++ PForest.stamps f from rfl,
        List.append_assoc, monoFromB_append, stamps_getLastD, Bool.and_eq_true] at h
      obtain ⟨ha, hb⟩ := h
      obtain ⟨h1, h2, hevT⟩ := tree_bounds t lo ha
      obtain ⟨h3, h4, hevF⟩ := forest_bounds f t.exitT hi hb
      simp only [PForest.spanSum, PForest.emits]
      refine ⟨by linarith, by linarith, ?_⟩
      intro tid fr pre ev hm
      simp only [List.mem_append] at hm
      rcases hm with hm | hm
      · exact hevT tid fr _ ev hm
      · exact hevF tid fr pre ev hm

end

/-- Claim C6: under the precondition that the successive clock readings
observed by `__enter__` and `__exit__` on a thread are non-decreasing, every
completed event the live scope stack emits satisfies
`0 ≤ exclusiveDuration ≤ inclusiveDuration`. -/
theorem completed_event_bounds :
    ∀ (t : PTree) (tid : Nat) (fr : Option Int),
      monoTimesB ((PTree.events t).map LiveOp.time) = true →
      ∀ ev ∈ (runOps true tid fr (PTree.events t) initLiveState).queue,
        0 ≤ ev.exclusive ∧ ev.exclusive ≤ ev.inclusive
  | .node n s e cs, tid, fr, h, ev, hm => by
      rw [events_map_time_tree] at h
      rw [show initLiveState = (⟨[], [], []⟩ : LiveState) from rfl, runOps_tree_root] at hm
      simp only [List.nil_append] at hm
      simp only [PTree.stamps, monoTimesB] at h
      have hmono : monoFromB s (PTree.stamps (PTree.node n s e cs)) = true := by
        simp only [PTree.stamps, monoFromB, Bool.and_eq_true, decide_eq_true_eq]
        exact ⟨le_refl s, h⟩
      exact (tree_bounds (PTree.node n s e cs) s hmono).2.2 tid fr _ ev hm

/-- Witness for C6: the precondition holds for the demo sequence, and B's event
satisfies the bounds. -/
theorem completed_event_bounds_witness :
    0 ≤ (⟨"A::B", 60, 60, 0, none, 120, 180⟩ : CompletedEvent).exclusive ∧
      (⟨"A::B", 60, 60, 0, none, 120, 180⟩ : CompletedEvent).exclusive ≤
        (⟨"A::B", 60, 60, 0, none, 120, 180⟩ : CompletedEvent).inclusive :=
  completed_event_bounds demoTree 0 none
    (by norm_num [demoTree, PTree.events, PForest.events, LiveOp.time, monoTimesB, monoFromB,
      Bool.and_eq_true, decide_eq_true_eq])
    ⟨"A::B", 60, 60, 0, none, 120, 180⟩ (by rw [demo_queue_eq]; simp)

/-! ### Codec lemmas and claim C2 -/

theorem natLE_length : ∀ (w v : Nat), (natLE w v).length = w
  | 0, _ => rfl
  | w + 1, v => by simp [natLE, natLE_length w]

theorem intLE_length (w : Nat) (v : Int) : (intLE w v).length = w :=
  natLE_length _ _

theorem natLEval_natLE : ∀ (w v : Nat), v < 256 ^ w → natLEval (natLE w v) = v
  | 0, v, h => by
      simp only [natLE, natLEval]
      omega
  | w + 1, v, h => by
      have hd : v / 256 < 256 ^ w := by
        rw [Nat.div_lt_iff_lt_mul (by norm_num)]
        calc v < 256 ^ (w + 1) := h
          _ = 256 ^ w * 256 := by ring
      simp only [natLE, natLEval, natLEval_natLE w (v / 256) hd]
      omega

theorem decodeSigned_intLE (w : Nat) (v : Int) (hw : 1 ≤ w)
    (hlo : -(2 ^ (8 * w - 1)) ≤ v) (hhi : v < 2 ^ (8 * w - 1)) :
    decodeSigned (intLE w v) = v := by
  have hA : (0 : Int) < 2 ^ (8 * w - 1) := by positivity
  have hM : (2 : Int) ^ (8 * w) = 2 ^ (8 * w - 1) * 2 := by
    rw [← pow_succ]
    congr 1
    omega
  have hres : v % ((2 : Int) ^ (8 * w)) = if 0 ≤ v then v else v + 2 ^ (8 * w) := by
    rcases le_or_lt 0 v with hv | hv
    · rw [if_pos hv]
      exact Int.emod_eq_of_lt hv (by omega)
    · rw [if_neg (not_le.mpr hv)]
      have h3 := @Int.add_mul_emod_self_left v ((2 : Int) ^ (8 * w)) 1
      rw [mul_one] at h3
      rw [← h3]
      exact Int.emod_eq_of_lt (by omega) (by omega)
  have hcast : (((2 : Nat) ^ (8 * w - 1) : Nat) : Int) = (2 : Int) ^ (8 * w - 1) := by
    push_cast
    ring
  have h256 : (256 : Nat) ^ w = 2 ^ (8 * w) := by
    rw [show (256 : Nat) = 2 ^ 8 from rfl, ← pow_mul]
  have hbound : (v % ((2 : Int) ^ (8 * w))).toNat < 256 ^ w := by
    have hnn : 0 ≤ v % ((2 : Int) ^ (8 * w)) := Int.emod_nonneg v (by positivity)
    have hlt : v % ((2 : Int) ^ (8 * w)) < (2 : Int) ^ (8 * w) :=
      Int.emod_lt_of_pos v (by positivity)
    have hcast2 : (((2 : Nat) ^ (8 * w) : Nat) : Int) = (2 : Int) ^ (8 * w) := by
      push_cast
      ring
    rw [h256]
    omega
  unfold decodeSigned intLE
  rw [natLE_length, natLEval_natLE w _ hbound, hres]
  rcases le_or_lt 0 v with hv | hv
  · rw [if_pos hv, if_pos (by omega)]
    omega
  · rw [if_neg (not_le.mpr hv), if_neg (by omega)]
    omega

theorem takeBytes_append (n : Nat) (a b : List Nat) (h : a.length = n) :
    takeBytes n (a ++ b) = some (a, b) := by
  subst h
  unfold takeBytes
  rw [if_pos (by simp)]
  rw [List.take_left, List.drop_left]

theorem decodeRecord_encodeRecord (ev : RawLogEvent) (tail : List Nat)
    (hval : validEvent ev) :
    decodeRecord (encodeRecord ev ++ tail) = some (cleanEvent ev, tail) := by
  obtain ⟨h1, h2, h3, h4, h5, h6, h7, h8⟩ := hval
  simp only [decodeRecord, encodeRecord, List.append_assoc,
    takeBytes_append _ _ _ (intLE_length 1 ev.op),
    takeBytes_append _ _ _ (natLE_length 8 ev.threadId),
    takeBytes_append _ _ _ (intLE_length 4 ev.frameId),
    takeBytes_append _ _ _ (natLE_length 8 ev.timestamp),
    takeBytes_append _ _ _ (natLE_length 2 ev.name.length),
    Option.bind_eq_bind, Option.some_bind]
  rw [natLEval_natLE 2 ev.name.length (by norm_num at h7 ⊢; omega)]
  rw [List.take_left, List.drop_left]
  rw [decodeSigned_intLE 1 ev.op (by norm_num) (by norm_num; omega) (by norm_num; omega)]
  rw [decodeSigned_intLE 4 ev.frameId (by norm_num) (by norm_num; omega) (by norm_num; omega)]
  rw [natLEval_natLE 8 ev.threadId (by norm_num at h3 ⊢; omega)]
  rw [natLEval_natLE 8 ev.timestamp (by norm_num at h6 ⊢; omega)]
  rfl

theorem decodeRecords_encodeRecords : ∀ (evs : List RawLogEvent),
    (∀ e ∈ evs, validEvent e) →
    decodeRecords evs.length (encodeRecords evs) = some (evs.map cleanEvent)
  | [], _ => rfl
  | ev :: rest, h => by
      simp only [List.length_cons, encodeRecords, decodeRecords]
      rw [decodeRecord_encodeRecord ev (encodeRecords rest) (h ev (List.mem_cons_self ev rest))]
      simp only [Option.bind_eq_bind, Option.some_bind]
      rw [decodeRecords_encodeRecords rest (fun e he => h e (List.mem_cons_of_mem ev he))]
      rfl

theorem decode_encode (evs : List RawLogEvent) (hlen : evs.length < 2 ^ 32)
    (hval : ∀ e ∈ evs, validEvent e) :
    decodeLog (encodeLog evs) = some (evs.map cleanEvent) := by
  simp only [decodeLog, encodeLog, List.append_assoc,
    takeBytes_append _ _ _ (natLE_length 4 0xFA57),
    takeBytes_append _ _ _ (natLE_length 4 evs.length),
    Option.bind_eq_bind, Option.some_bind]
  rw [natLEval_natLE 4 0xFA57 (by norm_num)]
  rw [if_pos rfl]
  rw [natLEval_natLE 4 evs.length (by norm_num at hlen ⊢; omega)]
  exact decodeRecords_encodeRecords evs hval

theorem replaceSep_id : ∀ (l : List Nat), hasSep l = false → replaceSep l = l
  | [], _ => rfl
  | [_], _ => rfl
  | b :: c :: rest, h => by
      simp only [hasSep, Bool.or_eq_false_iff] at h
      obtain ⟨hbc, hrest⟩ := h
      have hne : ¬(b = 58 ∧ c = 58) := by
        rintro ⟨hb, hc⟩
        subst hb
        subst hc
        simp at hbc
      simp only [replaceSep]
      rw [if_neg hne, replaceSep_id (c :: rest) hrest]

theorem map_cleanEvent_eq_self : ∀ (evs : List RawLogEvent),
    (∀ e ∈ evs, hasSep e.name = false) → evs.map cleanEvent = evs
  | [], _ => rfl
  | ev :: rest, h => by
      simp only [List.map_cons, List.cons.injEq]
      constructor
      · unfold cleanEvent
        rw [replaceSep_id ev.name (h ev (List.mem_cons_self ev rest))]
      · exact map_cleanEvent_eq_self rest fun e he => h e (List.mem_cons_of_mem ev he)

/-- Claim C2 counterexample: the valid ASCII record with name `"a::b"`
(bytes `[97, 58, 58, 98]`) does not round-trip — the binary reader replaces
`::` by `.` in the decoded name, yielding `"a.b"`. -/
theorem codec_round_trip_cex :
    validEvent cexSepEvent ∧
      decodeLog (encodeLog [cexSepEvent]) ≠ some [cexSepEvent] := by
  constructor
  · decide
  · rw [decode_encode [cexSepEvent] (by norm_num) (by decide)]
    decide

/-- Claim C2 (amended): for every valid sequence of RawLogEvents — ASCII names,
integer fields within the declared field widths — whose names contain no `::`
substring, decoding the binary encoding of the sequence yields a sequence
identical to the original, field for field.  (In general the reader rewrites
each `::` in a name to `.`, so sequences with `::` in a name decode to that
rewritten form instead.) -/
theorem codec_round_trip_no_sep (evs : List RawLogEvent)
    (hlen : evs.length < 2 ^ 32)
    (hval : ∀ e ∈ evs, validEvent e)
    (hsep : ∀ e ∈ evs, hasSep e.name = false) :
    decodeLog (encodeLog evs) = some evs := by
  rw [decode_encode evs hlen hval, map_cleanEvent_eq_self evs hsep]

/-- Witness for the amended C2 round trip at a concrete one-record log. -/
theorem codec_round_trip_no_sep_witness :
    decodeLog (encodeLog [⟨0, 5, -1, 1000, [97, 98]⟩]) =
      some [⟨0, 5, -1, 1000, [97, 98]⟩] :=
  codec_round_trip_no_sep [⟨0, 5, -1, 1000, [97, 98]⟩] (by norm_num) (by decide) (by decide)

/-! ### Claim C7 -/

/-- Claim C7: when the process-wide collection gate is disabled, `__enter__`,
`__exit__` and `Note` perform no work: the completed-event queue, the
annotation queue and the calling thread's scope stack are all unchanged. -/
theorem disabled_gate_noop (blockName txt : String) (frame : Option Int)
    (tid : Nat) (now : ℚ) (st : LiveState) :
    perfEnter false blockName frame tid now st = st ∧
      perfExit false now st = st ∧
      perfNote false txt frame tid now st = st :=
  ⟨rfl, rfl, rfl⟩

/-! ### Claim C3 -/

/-- Claim C3 (the code defect): whenever a minimum-frame-duration threshold is
configured and the perfQueue holds at least one event, the drain loop of
`PrintPerfReport` raises `UnboundLocalError` on the very first event — the
filter condition reads the function-local variable `duration` before any
assignment — so no frame filtering by span ever happens. -/
theorem min_frame_filter_unbound (m : ℚ) (ev : CompletedEvent)
    (evs : List CompletedEvent) :
    printReportDrain (some m) (ev :: evs) = .error () := rfl

/-! ### Claim C4, counterexample -/

/-- Claim C4 counterexample: replaying a stream that begins with an Exit for a
thread with no prior Enter *does* fail — `timer = stacks[threadId][-1]` runs
outside any `try` and raises `KeyError` (modelled `Except.error ()`), rather
than recording a pending boundary. -/
theorem replay_leading_exit_cex :
    replayRecords [⟨1, 7, 0, 100000000000, ""⟩] initReplayState = .error () := rfl

/-! ### Claim C5 -/

theorem lastComponent_XY : lastComponent "X::Y" = "Y" := by decide

theorem lastComponent_ZY : lastComponent "Z::Y" = "Y" := by decide

/-- Claim C5: aggregating events with scope names "X::Y" and "Z::Y" (one event
each) in FLAT mode yields exactly one group, keyed by the substring after the
last `::` ("Y"), with count 2; aggregating the same input in TREE mode yields
the two distinct groups "X::Y" and "Z::Y", each with count 1. -/
theorem flat_tree_grouping (i1 e1 i2 e2 : ℚ) (tid1 tid2 : Nat) (fr1 fr2 : Option Int)
    (s1 t1 s2 t2 : ℚ) :
    (buildReports 1 [⟨"X::Y", i1, e1, tid1, fr1, s1, t1⟩,
        ⟨"Z::Y", i2, e2, tid2, fr2, s2, t2⟩]).1 =
        [("Y", addToStats (addToStats initStats i1 e1) i2 e2)] ∧
      (addToStats (addToStats initStats i1 e1) i2 e2).count = 2 ∧
      (buildReports 0 [⟨"X::Y", i1, e1, tid1, fr1, s1, t1⟩,
          ⟨"Z::Y", i2, e2, tid2, fr2, s2, t2⟩]).1 =
        [("X::Y", addToStats initStats i1 e1), ("Z::Y", addToStats initStats i2 e2)] ∧
      (addToStats initStats i1 e1).count = 1 ∧
      (addToStats initStats i2 e2).count = 1 := by
  refine ⟨?_, rfl, ?_, rfl, rfl⟩
  · simp [buildReports, buildReportsAux, reportInsert, reportKey, lastComponent_XY,
      lastComponent_ZY]
  · simp [buildReports, buildReportsAux, reportInsert, reportKey]

/-! ### Claim C8 -/

/-- Claim C8 counterexample: a group's running min/max start from the sentinel
initializers 0 and 999999999, not from the first event, so a first event with
inclusive duration -1 leaves maxInclusive at 0 rather than -1. -/
theorem agg_first_event_cex :
    reportFind (reportInsert [] "A" (-1) (-1)) "A" =
        some ⟨-1, -1, 1, 0, 0, -1, -1⟩ ∧
      (0 : ℚ) ≠ (-1 : ℚ) := by
  constructor
  · have h1 : max (-1 : ℚ) 0 = 0 := by norm_num [max_def]
    have h2 : min (-1 : ℚ) 999999999 = -1 := by norm_num [min_def]
    simp [reportInsert, reportFind, addToStats, initStats, h1, h2]
  · norm_num

/-- Claim C8 (amended): after the first event of a group, the group's stats are
count 1, sums equal to the event's durations, and min/max equal to the event's
durations — provided both durations lie within [0, 999999999]; outside that
range the sentinel initializers 0 (for max) and 999999999 (for min) leak
through. -/
theorem agg_first_event_minmax (rep : List (String × AggStats)) (key : String)
    (inc exc : ℚ) (hfind : reportFind rep key = none)
    (hinc0 : 0 ≤ inc) (hinc1 : inc ≤ 999999999)
    (hexc0 : 0 ≤ exc) (hexc1 : exc ≤ 999999999) :
    reportFind (reportInsert rep key inc exc) key =
      some ⟨inc, exc, 1, inc, exc, inc, exc⟩ := by
  induction rep with
  | nil =>
      show reportFind [(key, addToStats initStats inc exc)] key = _
      rw [reportFind, if_pos rfl]
      show some (⟨0 + inc, 0 + exc, 0 + 1, max inc 0, max exc 0, min inc 999999999,
        min exc 999999999⟩ : AggStats) = _
      rw [max_eq_left hinc0, max_eq_left hexc0, min_eq_left hinc1, min_eq_left hexc1]
      norm_num
  | cons kv rest ih =>
      obtain ⟨k, s⟩ := kv
      by_cases hk : k = key
      · subst hk
        simp [reportFind] at hfind
      · simp only [reportFind, if_neg hk] at hfind
        simp only [reportInsert, if_neg hk, reportFind]
        exact ih hfind

/-- Witness for the amended C8 at a concrete first event. -/
theorem agg_first_event_minmax_witness :
    reportFind (reportInsert [] "A" 5 7) "A" = some ⟨5, 7, 1, 5, 7, 5, 7⟩ :=
  agg_first_event_minmax [] "A" 5 7 rfl (by norm_num) (by norm_num) (by norm_num)
    (by norm_num)

/-! ### Claim C9 -/

theorem reportInsert_ne_nil (rep : List (String × AggStats)) (key : String)
    (inc exc : ℚ) : reportInsert rep key inc exc ≠ [] := by
  match rep with
  | [] => simp [reportInsert]
  | (k, s) :: rest =>
      simp only [reportInsert]
      split <;> simp

theorem buildReportsAux_fst_ne_nil (mode : Nat) :
    ∀ (evs : List CompletedEvent)
      (acc : List (String × AggStats) × List (Nat × List (String × AggStats))),
      acc.1 ≠ [] → (buildReportsAux mode evs acc).1 ≠ []
  | [], _, h => h
  | ev :: rest, acc, _ => by
      simp only [buildReportsAux]
      exact buildReportsAux_fst_ne_nil mode rest _ (reportInsert_ne_nil _ _ _ _)

theorem alistFind_threadInsert_ne (tid : Nat) :
    ∀ (treps : List (Nat × List (String × AggStats))) (t : Nat) (key : String)
      (inc exc : ℚ), t ≠ tid →
      alistFind (threadReportsInsert treps t key inc exc) tid = alistFind treps tid
  | [], t, key, inc, exc, h => by simp [threadReportsInsert, alistFind, h]
  | (u, rep) :: rest, t, key, inc, exc, h => by
      simp only [threadReportsInsert]
      by_cases hu : u = t
      · subst hu
        rw [if_pos rfl]
        simp only [alistFind]
        rw [if_neg h, if_neg h]
      · rw [if_neg hu]
        simp only [alistFind]
        by_cases hu2 : u = tid
        · rw [if_pos hu2, if_pos hu2]
        · rw [if_neg hu2, if_neg hu2]
          exact alistFind_threadInsert_ne tid rest t key inc exc h

theorem buildReportsAux_thread_missing (mode : Nat) (tid : Nat) :
    ∀ (evs : List CompletedEvent)
      (acc : List (String × AggStats) × List (Nat × List (String × AggStats))),
      (∀ e ∈ evs, e.threadId ≠ tid) →
      alistFind (buildReportsAux mode evs acc).2 tid = alistFind acc.2 tid
  | [], _, _ => rfl
  | ev :: rest, acc, h => by
      simp only [buildReportsAux]
      rw [buildReportsAux_thread_missing mode tid rest _
        (fun e he => h e (List.mem_cons_of_mem ev he))]
      exact alistFind_threadInsert_ne tid acc.2 ev.threadId _ _ _
        (h ev (List.mem_cons_self ev rest))

/-- Claim C9: in TREE or FLAT (non-HTML) report mode, when the collected
events are non-empty but none carries the invoking thread's id, the report
raises `KeyError` on the unguarded `threadreports[current_thread]` lookup
instead of completing after the other threads' reports. -/
theorem report_missing_thread_keyerror (reportMode curTid : Nat)
    (ev : CompletedEvent) (evs : List CompletedEvent)
    (hmode : reportMode = 0 ∨ reportMode = 1)
    (hmiss : ∀ e ∈ ev :: evs, e.threadId ≠ curTid) :
    printOutcome reportMode curTid (ev :: evs) = .error () := by
  have hfull : (buildReports reportMode (ev :: evs)).1 ≠ [] := by
    unfold buildReports
    simp only [buildReportsAux]
    exact buildReportsAux_fst_ne_nil reportMode evs _ (reportInsert_ne_nil _ _ _ _)
  have hm2 : reportMode ≠ 2 := by rcases hmode with h | h <;> omega
  have hfind : alistFind (buildReports reportMode (ev :: evs)).2 curTid = none := by
    unfold buildReports
    rw [buildReportsAux_thread_missing reportMode curTid (ev :: evs) ([], []) hmiss]
    rfl
  unfold printOutcome
  rw [if_neg hfull, if_neg hm2, hfind]

/-- Witness for C9: one event on thread 5, report invoked from thread 9 in
TREE mode. -/
theorem report_missing_thread_keyerror_witness :
    printOutcome 0 9 [⟨"A", 1, 1, 5, none, 0, 1⟩] = .error () :=
  report_missing_thread_keyerror 0 9 ⟨"A", 1, 1, 5, none, 0, 1⟩ [] (Or.inl rfl)
    (by
      intro e he
      simp only [List.mem_singleton] at he
      subst he
      decide)

/-! ### Claims C4 (amended) and C10: the replayer's pending-boundary bridging -/

theorem processRecord_bridging (st : ReplayState) (T : Nat) (f : Int) (b : ℚ)
    (n : String) (ts : Nat)
    (hstack : st.threadStacks T = some [] ∨ st.threadStacks T = none)
    (hpend : st.lastEnd T f = some b) :
    processRecord st ⟨0, T, f, ts, n⟩ =
      .ok { st with
        threadStacks := fun t =>
          if t = T then
            some [⟨n, n, T, (if 0 ≤ f then some f else none),
              (ts : ℚ) / (1000 * 1000 * 1000), (ts : ℚ) / (1000 * 1000 * 1000), 0, 0⟩]
          else st.threadStacks t,
        lastEnd := fun t g => if t = T ∧ g = f then none else st.lastEnd t g,
        perfQueue := st.perfQueue ++
          [⟨"<unknown>", (ts : ℚ) / (1000 * 1000 * 1000) - b,
            (ts : ℚ) / (1000 * 1000 * 1000) - b, T, some f, b,
            (ts : ℚ) / (1000 * 1000 * 1000)⟩] } := by
  rcases hstack with h | h <;> simp [processRecord, h, hpend]

/-- Claim C10: every `<unknown>` bridging CompletedEvent emitted by the
replayer on an Enter that finds a pending boundary for that thread+frame has
inclusiveDuration equal to exclusiveDuration, both equal to the Enter
timestamp minus the pending boundary timestamp, with startTimestamp the
boundary and endTimestamp the Enter timestamp; the pending boundary is cleared
afterwards. -/
theorem replay_unknown_event_shape (st : ReplayState) (T : Nat) (f : Int) (b : ℚ)
    (n : String) (ts : Nat)
    (hstack : st.threadStacks T = some [] ∨ st.threadStacks T = none)
    (hpend : st.lastEnd T f = some b) :
    replayIsOk (processRecord st ⟨0, T, f, ts, n⟩) = true ∧
      replayQueueOf (processRecord st ⟨0, T, f, ts, n⟩) =
        st.perfQueue ++
          [⟨"<unknown>", (ts : ℚ) / (1000 * 1000 * 1000) - b,
            (ts : ℚ) / (1000 * 1000 * 1000) - b, T, some f, b,
            (ts : ℚ) / (1000 * 1000 * 1000)⟩] ∧
      replayLastEndOf T f (processRecord st ⟨0, T, f, ts, n⟩) = none := by
  rw [processRecord_bridging st T f b n ts hstack hpend]
  refine ⟨rfl, rfl, ?_⟩
  simp [replayLastEndOf]

/-- Witness for C10 at a concrete pending state. -/
theorem replay_unknown_event_shape_witness :
    replayIsOk (processRecord pendingState2 ⟨0, 3, 2, 20000000000, "Y"⟩) = true ∧
      replayQueueOf (processRecord pendingState2 ⟨0, 3, 2, 20000000000, "Y"⟩) =
        pendingState2.perfQueue ++
          [⟨"<unknown>", (20000000000 : ℚ) / (1000 * 1000 * 1000) - 10,
            (20000000000 : ℚ) / (1000 * 1000 * 1000) - 10, 3, some 2, 10,
            (20000000000 : ℚ) / (1000 * 1000 * 1000)⟩] ∧
      replayLastEndOf 3 2 (processRecord pendingState2 ⟨0, 3, 2, 20000000000, "Y"⟩) =
        none :=
  replay_unknown_event_shape pendingState2 3 2 10 "Y" 20000000000 (Or.inl rfl) rfl

/-- Claim C4 (amended): a replayed stream that begins with an Exit for a
thread/frame pair with no prior Enter fails (KeyError at
`stacks[threadId][-1]`), rather than recording a pending boundary.  The
pending-boundary recovery instead applies when an Exit empties an existing
stack: that Exit records its timestamp as the pending boundary for its
thread+frame, and a later Enter for the same thread+frame then first emits one
bridging `<unknown>` CompletedEvent spanning [boundary, enter) and pushes the
new region, whose own event follows later.  Concretely, replaying
Enter(A)@50s, Exit@100s, Enter(X)@150s, Exit@200s on thread 7 / frame 0 yields
A's event, then the `<unknown>` event spanning [100, 150), then X's event. -/
theorem replay_bridging_amended :
    (∀ (T : Nat) (f : Int) (ts : Nat) (nm : String),
        replayRecords [⟨1, T, f, ts, nm⟩] initReplayState = .error ()) ∧
      (∀ (st : ReplayState) (T : Nat) (f : Int) (b : ℚ) (n : String) (ts : Nat),
        st.threadStacks T = some [] → st.lastEnd T f = some b →
        replayIsOk (processRecord st ⟨0, T, f, ts, n⟩) = true ∧
          replayQueueOf (processRecord st ⟨0, T, f, ts, n⟩) =
            st.perfQueue ++
              [⟨"<unknown>", (ts : ℚ) / (1000 * 1000 * 1000) - b,
                (ts : ℚ) / (1000 * 1000 * 1000) - b, T, some f, b,
                (ts : ℚ) / (1000 * 1000 * 1000)⟩] ∧
          replayStackOf T (processRecord st ⟨0, T, f, ts, n⟩) =
            some [⟨n, n, T, (if 0 ≤ f then some f else none),
              (ts : ℚ) / (1000 * 1000 * 1000), (ts : ℚ) / (1000 * 1000 * 1000), 0, 0⟩]) ∧
      replayQueueOf (replayRecords demoReplayRecords initReplayState) =
        [⟨"A", 50, 50, 7, some 0, 50, 100⟩,
          ⟨"<unknown>", 50, 50, 7, some 0, 100, 150⟩,
          ⟨"X", 50, 50, 7, some 0, 150, 200⟩] := by
  refine ⟨?_, ?_, ?_⟩
  · intro T f ts nm
    simp [replayRecords, processRecord, initReplayState]
  · intro st T f b n ts hstack hpend
    rw [processRecord_bridging st T f b n ts (Or.inl hstack) hpend]
    refine ⟨rfl, rfl, ?_⟩
    simp [replayStackOf]
  · norm_num [demoReplayRecords, replayRecords, processRecord, initReplayState,
      replayQueueOf]

/-- Witness for the amended C4's bridging part at a concrete pending state. -/
theorem replay_bridging_amended_witness :
    replayIsOk (processRecord pendingState ⟨0, 7, 0, 150000000000, "X"⟩) = true ∧
      replayQueueOf (processRecord pendingState ⟨0, 7, 0, 150000000000, "X"⟩) =
        pendingState.perfQueue ++
          [⟨"<unknown>", (150000000000 : ℚ) / (1000 * 1000 * 1000) - 100,
            (150000000000 : ℚ) / (1000 * 1000 * 1000) - 100, 7, some 0, 100,
            (150000000000 : ℚ) / (1000 * 1000 * 1000)⟩] ∧
      replayStackOf 7 (processRecord pendingState ⟨0, 7, 0, 150000000000, "X"⟩) =
        some [⟨"X", "X", 7, (if 0 ≤ (0 : Int) then some 0 else none),
          (150000000000 : ℚ) / (1000 * 1000 * 1000),
          (150000000000 : ℚ) / (1000 * 1000 * 1000), 0, 0⟩] :=
  replay_bridging_amended.2.1 pendingState 7 0 100 "X" 150000000000 rfl rfl

end PerfTimerSpec
